import Mathlib

set_option maxRecDepth 8192

/-!
Verification of the mediabackups backup pipeline and metadata state machine.

The definitions below are a shallow embedding of the Python sources:
`Util.py`, `File.py`, `MySQLMetadata.py`, `MySQLMedia.py`, `SwiftMedia.py`,
`S3.py`, `cli/backup_wiki.py` and `InteractiveQuery.py`.  Pure functions
become Lean functions; database and object-store effects become explicit
state passing over lists of rows, with environment oracles for the outcomes
of external calls.  Timestamps are abstracted as natural numbers and
strings of the database are kept as Lean strings (the numeric foreign-key
indirection of the metadata schema is a bijection maintained by
`get_fks` and is dropped here: rows carry the decoded strings directly).
-/

namespace Mediabackups

/-! ## File.py: the File record

Mirrors `File.__init__` / `File.properties`.  `type` defaults to the
string ERROR at construction when the source value is falsy; rows in the
model already carry the final value. -/

structure File where
  wiki : String
  upload_name : Option String
  size : Option Nat
  type : String
  status : String
  upload_timestamp : Option Nat
  archived_timestamp : Option Nat
  deleted_timestamp : Option Nat
  sha1 : Option String
  sha256 : Option String
  md5 : Option String
  storage_container : Option String
  storage_path : Option String
deriving DecidableEq

/-! ## MySQLMetadata.py: the metadata database state

One `files` row: its numeric id, the decoded File attributes, and the
`backup_status` column.  The physical `files` table has no sha256 column;
the `file.sha256` field carries the content hash of the row's file (the
value the pipeline computes after download), which is what the
`backups (wiki, sha256)` ledger invariant of the spec refers to. -/

structure FilesRow where
  id : Nat
  file : File
  backup_status : String
deriving DecidableEq

structure BackupsRow where
  location : Int
  wiki : String
  sha256 : Option String
  sha1 : Option String
deriving DecidableEq

structure DB where
  files : List FilesRow
  backups : List BackupsRow
deriving DecidableEq

/-! ## MySQLMetadata.check_and_update (lines 449-521)

Per incoming file, the decision taken by the reconciliation loop. -/

inductive CheckAction where
  | skip
  | insertNew
  | scheduleUpdate (fid : Nat)
  | ambiguous
  | unchanged
deriving DecidableEq

/-- Rows of the wiki whose sha1 equals the incoming file's sha1
(the SELECT filters `sha1 is not NULL AND sha1 IN (...)` and the
loop looks the file's sha1 up in the resulting dictionary). -/
def sha1Matches (rows : List FilesRow) (f : File) : List FilesRow :=
  rows.filter (fun r => r.file.sha1.isSome ∧ r.file.sha1 = f.sha1)

/-- The candidate filter of the loop body: identical sha1 and size, and a
non-null incoming upload timestamp equal to the stored one. -/
def candidateMatches (rows : List FilesRow) (f : File) : List FilesRow :=
  (sha1Matches rows f).filter (fun r =>
    r.file.sha1 = f.sha1 ∧ r.file.size = f.size ∧
    f.upload_timestamp ≠ none ∧ r.file.upload_timestamp = f.upload_timestamp)

/-- Negation of the seven-way difference test that schedules an update. -/
def fileUnchanged (m f : File) : Prop :=
  m.status = f.status ∧ m.upload_name = f.upload_name ∧ m.type = f.type ∧
  m.archived_timestamp = f.archived_timestamp ∧
  m.deleted_timestamp = f.deleted_timestamp ∧
  m.storage_container = f.storage_container ∧ m.storage_path = f.storage_path

instance (m f : File) : Decidable (fileUnchanged m f) := by
  unfold fileUnchanged; infer_instance

/-- The decision `check_and_update` takes for one incoming file:
`continue` when sha1 is None; append to `files_to_add` when the sha1 has
no match (either absent from the dictionary or zero filtered candidates);
skip with an error on two or more candidates; otherwise compare the
remaining attributes. -/
def classifyFile (rows : List FilesRow) (f : File) : CheckAction :=
  if f.sha1 = none then CheckAction.skip
  else if sha1Matches rows f = [] then CheckAction.insertNew
  else
    match candidateMatches rows f with
    | [] => CheckAction.insertNew
    | [m] => if fileUnchanged m.file f then CheckAction.unchanged
             else CheckAction.scheduleUpdate m.id
    | _ :: _ :: _ => CheckAction.ambiguous

/-- The `files_to_add` and `files_to_update` accumulation over the batch. -/
def checkAndUpdateLists (rows : List FilesRow) (files : List File) :
    List File × List (Nat × File) :=
  files.foldl (fun acc f =>
    match classifyFile rows f with
    | CheckAction.insertNew => (acc.1 ++ [f], acc.2)
    | CheckAction.scheduleUpdate fid => (acc.1, acc.2 ++ [(fid, f)])
    | _ => acc) ([], [])

/-- The value `check_and_update` returns, `update(...) + add(...)`, in the
run where every row operation succeeds (update returns the number of
successful per-id updates and add the number of inserted rows). -/
def checkAndUpdateCount (rows : List FilesRow) (files : List File) : Nat :=
  (checkAndUpdateLists rows files).2.length + (checkAndUpdateLists rows files).1.length

/-! ## MySQLMetadata.update (lines 363-447)

The per-id write step after the old row was read and copied to
`file_history`: the first UPDATE branch also forces
`backup_status = pending`, the second leaves it alone.  Both branches
write `upload_name, file_type, status, deleted_timestamp,
archived_timestamp, storage_container, storage_path` from the incoming
file and nothing else. -/

def updateFileRow (old : FilesRow) (f : File) : FilesRow :=
  if (old.file.storage_container ≠ f.storage_container ∨
      old.file.storage_path ≠ f.storage_path) ∧ old.backup_status = "error" then
    { id := old.id,
      file := { old.file with
        upload_name := f.upload_name, type := f.type, status := f.status,
        deleted_timestamp := f.deleted_timestamp,
        archived_timestamp := f.archived_timestamp,
        storage_container := f.storage_container, storage_path := f.storage_path },
      backup_status := "pending" }
  else
    { id := old.id,
      file := { old.file with
        upload_name := f.upload_name, type := f.type, status := f.status,
        deleted_timestamp := f.deleted_timestamp,
        archived_timestamp := f.archived_timestamp,
        storage_container := f.storage_container, storage_path := f.storage_path },
      backup_status := old.backup_status }

/-! ## S3.check_file_exists (S3.py lines 43-57)

The HEAD request either succeeds or raises a ClientError carrying a
numeric error code (`int(ex.response.Error.Code)`); the function returns
`code != 404` in the error case and True otherwise. -/

inductive HeadResult where
  | success
  | clientError (code : Int)
deriving DecidableEq

def check_file_exists (r : HeadResult) : Bool :=
  match r with
  | HeadResult.success => true
  | HeadResult.clientError code => decide (code ≠ 404)

/-! ## SwiftMedia.isBigWiki and MySQLMedia.get_image_ranges -/

def wmfSwiftBigWikis : List String :=
  ["commonswiki", "dewiki", "enwiki", "fiwiki", "frwiki", "hewiki", "huwiki",
   "idwiki", "itwiki", "jawiki", "rowiki", "ruwiki", "thwiki", "trwiki",
   "ukwiki", "zhwiki"]

def isBigWiki (wiki : String) : Bool :=
  wmfSwiftBigWikis.contains wiki

def imageRangeLetters : List String :=
  ["A", "B", "C", "D", "E", "F", "G", "H", "I", "J", "K", "L", "M",
   "N", "O", "P", "Q", "R", "S", "T", "U", "V", "W", "X", "Y", "Z"]

def imageRangeSeconds : List String :=
  ["0", "c", "h", "m", "q", "t"]

/-- Mirrors `MySQLMedia.get_image_ranges` (MySQLMedia.py lines 150-167):
the fixed boundary list for big wikis, `[None, None]` otherwise. -/
def get_image_ranges (wiki : String) : List (Option String) :=
  if isBigWiki wiki then
    ([none] ++
      ((["0", "05", "1", "15", "19", "20", "2013", "2016", "2018", "2019",
         "2020", "3", "4", "5", "6", "7", "8", "9"] : List String).map some)) ++
    (imageRangeLetters.flatMap (fun x => imageRangeSeconds.map (fun y => some (x ++ y)))) ++
    ([some ("^"), some ("В"), some ("Л"), some ("С"), some ("Ե"), some ("儀"), none])
  else [none, none]

/-! ## MySQLMetadata.update_status (lines 243-284)

Each list element carries the row id, the File object (holding the
computed content hashes), the new status string and the backup location.
The loop first runs `UPDATE files SET backup_status = ... WHERE id = ...`
(raising when the affected row count differs from 1 — each statement is
committed on its own by `query_and_fetchall`, so the update persists even
on the raising paths), then, for the `backedup` transition only, inserts
into the `backups` ledger.  The INSERT can fail two ways: a unique-key
IntegrityError on the `(wiki, sha256)` key, which the code logs and
swallows, or a MySQLQueryError (driver error that persists after one
reconnect), on which the function returns -1 at once.  The `oracle` list
supplies, per attempted INSERT, whether the driver fails
(`true` = MySQLQueryError); the IntegrityError case is determined by the
state: it fires exactly when a `(wiki, sha256)` ledger row already
exists. -/

structure StatusEntry where
  id : Nat
  file : File
  status : String
  location : Int
deriving DecidableEq

def setBackupStatus (rows : List FilesRow) (fid : Nat) (st : String) : List FilesRow :=
  rows.map (fun r => if r.id = fid then { r with backup_status := st } else r)

def rowsMatching (rows : List FilesRow) (fid : Nat) : Nat :=
  (rows.filter (fun r => r.id = fid)).length

def hasBackupRow (bs : List BackupsRow) (w : String) (s : Option String) : Bool :=
  bs.any (fun b => decide (b.wiki = w ∧ b.sha256 = s))

def updateStatus : DB → List StatusEntry → List Bool → Except DB (DB × Int)
  | db, [], _ => Except.ok (db, 0)
  | db, e :: rest, oracle =>
    let db1 : DB := { db with files := setBackupStatus db.files e.id e.status }
    if rowsMatching db.files e.id ≠ 1 then Except.error db1
    else if e.status = "backedup" then
      if oracle.headD false then Except.ok (db1, -1)
      else
        let db2 : DB :=
          if hasBackupRow db1.backups e.file.wiki e.file.sha256 then db1
          else { db1 with backups :=
                   db1.backups ++ [⟨e.location, e.file.wiki, e.file.sha256, e.file.sha1⟩] }
        updateStatus db2 rest oracle.tail
    else updateStatus db1 rest oracle

def resultDB : Except DB (DB × Int) → DB
  | Except.error d => d
  | Except.ok (d, _) => d

def resultCode : Except DB (DB × Int) → Option Int
  | Except.error _ => none
  | Except.ok (_, c) => some c

/-- Invariant 2 of the spec: every files row in state `backedup` has a
`backups` ledger row with the same wiki and content sha256. -/
def ledgerInvariant (db : DB) : Bool :=
  db.files.all (fun r =>
    if r.backup_status = "backedup"
    then hasBackupRow db.backups r.file.wiki r.file.sha256
    else true)

/-! ## cli/backup_wiki.py: the per-file pipeline loop (lines 108-207)

The environment fixes the outcome of the external calls of one file:
whether the Swift download succeeds, whether the backup key already
exists in the S3 store, whether `age` encryption succeeds, and the
location id that `upload_file` returns (negative on error). -/

structure PipelineEnv where
  downloadOk : Bool
  existsInBackup : Bool
  encryptOk : Bool
  uploadLocation : Int
deriving DecidableEq

inductive BackupError where
  | download
  | encryption
  | duplicate
  | upload
deriving DecidableEq

def lastPathComponent (p : String) : String :=
  (p.splitOn ("/")).getLastD ""

/-- Mirrors `download_file_from_production`: the target path is the tmp
dir joined with the basename of the storage path (empty when the storage
path is None); raises DownloadException when the Swift download fails. -/
def download_file_from_production (f : File) (tmp_dir : String) (env : PipelineEnv) :
    Except BackupError String :=
  let basename := match f.storage_path with
                  | some p => lastPathComponent p
                  | none => ""
  let download_path := tmp_dir ++ "/" ++ basename
  if env.downloadOk then Except.ok download_path else Except.error BackupError.download

/-- The temporary files present on disk after the per-file processing and
before any cleanup: nothing when the download failed; the downloaded file
itself, plus the `.age` artifact when a non-public wiki's encryption ran
(age keeps its input file). -/
def tmpFilesCreated (f : File) (tmp_dir : String) (nonPublic : Bool) (env : PipelineEnv) :
    List String :=
  if env.downloadOk then
    match download_file_from_production f tmp_dir env with
    | Except.error _ => []
    | Except.ok p =>
      if env.existsInBackup then [p]
      else if nonPublic then (if env.encryptOk then [p, p ++ ".age"] else [p])
      else [p]
  else []

/-- Mirrors `download_and_backup` (lines 108-123).  The `download_path`
parameter is rebound by a local assignment on the first line of the body,
exactly as in the Python — the caller's variable is not affected. -/
def download_and_backup (f : File) (tmp_dir : String) (download_path : Option String)
    (nonPublic : Bool) (env : PipelineEnv) : Except BackupError (String × Int) :=
  match download_file_from_production f tmp_dir env with
  | Except.error e => Except.error e
  | Except.ok dp =>
    if env.existsInBackup then Except.error BackupError.duplicate
    else if nonPublic ∧ ¬ env.encryptOk then Except.error BackupError.encryption
    else if env.uploadLocation < 0 then Except.error BackupError.upload
    else Except.ok ("backedup", env.uploadLocation)

structure PerFileResult where
  status : String
  location : Option Int
  removeAttempted : Bool
  tmpFilesLeft : List String
deriving DecidableEq

/-- One iteration of the `for file_id, f in batch.items()` loop of
`main` (lines 179-206): `location = None; download_path = None`, the call
to `download_and_backup` with its exception handlers, and the `finally`
block that calls `os.remove(download_path)` only when main's own
`download_path` is not None. -/
def mainPerFile (f : File) (tmp_dir : String) (nonPublic : Bool) (env : PipelineEnv) :
    PerFileResult :=
  let download_path : Option String := none
  let statusLoc : String × Option Int :=
    match download_and_backup f tmp_dir download_path nonPublic env with
    | Except.ok (st, loc) => (st, some loc)
    | Except.error BackupError.download => ("error", none)
    | Except.error BackupError.encryption => ("error", none)
    | Except.error BackupError.duplicate => ("duplicate", none)
    | Except.error BackupError.upload => ("error", none)
  { status := statusLoc.1,
    location := statusLoc.2,
    removeAttempted := download_path.isSome,
    tmpFilesLeft :=
      (tmpFilesCreated f tmp_dir nonPublic env).filter
        (fun p => download_path ≠ some p) }

/-! ## InteractiveQuery.py: the deletion flow (lines 272-330)

`delete-media-file` drives `InteractiveQuery.delete_files`, which first
runs `check_deleted_from_production` over the whole list (HEAD request on
every non-null production_url — issued with no timeout argument — with
`sys.exit(6)` on any status other than 404) and only then the deletion
loop.  The trace records, in order, the probe calls with the timeout they
carry, the session exits, and the `s3api.delete_file` calls. -/

structure BackupRec where
  wiki : String
  sha256 : String
  production_url : Option String
  backup_path : String
  backup_location : String
deriving DecidableEq

inductive DelEvent where
  | probe (url : String) (timeout : Option Nat)
  | exitSession (code : Int)
  | deleteObject (key : String)
deriving DecidableEq

def checkEvents (probe : String → Nat) : List BackupRec → List DelEvent
  | [] => []
  | f :: rest =>
    match f.production_url with
    | none => checkEvents probe rest
    | some u =>
      if probe u ≠ 404 then [DelEvent.probe u none, DelEvent.exitSession 6]
      else DelEvent.probe u none :: checkEvents probe rest

def checkAborts (probe : String → Nat) (files : List BackupRec) : Bool :=
  files.any (fun f =>
    match f.production_url with
    | none => false
    | some u => decide (probe u ≠ 404))

/-- The deletion loop of `delete_files`: skip (continue) a missing key
with no same-batch `(wiki, sha256)` duplicate; in dry mode only record
the file as deleted; otherwise call `s3api.delete_file` (its result given
by `delOk`), recording the file on success. -/
def deleteLoop (exF : String → Bool) (delOk : String → Bool) (dry : Bool) :
    List BackupRec → List BackupRec → List DelEvent
  | [], _ => []
  | f :: rest, deleted =>
    if ¬ exF f.backup_path ∧
       ¬ deleted.any (fun x => decide (x.wiki = f.wiki ∧ x.sha256 = f.sha256)) then
      deleteLoop exF delOk dry rest deleted
    else if dry then
      deleteLoop exF delOk dry rest (deleted ++ [f])
    else if delOk f.backup_path then
      DelEvent.deleteObject f.backup_path :: deleteLoop exF delOk dry rest (deleted ++ [f])
    else
      DelEvent.deleteObject f.backup_path :: deleteLoop exF delOk dry rest deleted

/-- The full `delete_files` trace: the production check first, then — only
when it did not exit — the deletion loop. -/
def delete_files (probe : String → Nat) (exF : String → Bool) (delOk : String → Bool)
    (dry : Bool) (files : List BackupRec) : List DelEvent :=
  if checkAborts probe files then checkEvents probe files
  else checkEvents probe files ++ deleteLoop exF delOk dry files []

/-! ## Util.py: base16tobase36 and base36tobase16 (lines 71-86)

Strings are modelled as lists of characters.  `int(x, b)` parses a
numeral (rejecting the empty string); on the lowercase inputs the claims
quantify over, the digit alphabets below agree with Python.
`numpy.base_repr(n, b)` renders the canonical digits most significant
first (and renders 0 as a single zero digit); the `.lower()` in the
source is folded into the digit alphabet.  `zfill(k)` left-pads with
zero characters up to length `k`. -/

/-- The digit alphabet of `numpy.base_repr(..., 36).lower()` and of
`int(x, 36)` restricted to lowercase: 0-9 then a-z. -/
def base36DigitChar (d : Nat) : Char :=
  match d with
  | 0 => '0' | 1 => '1' | 2 => '2' | 3 => '3' | 4 => '4'
  | 5 => '5' | 6 => '6' | 7 => '7' | 8 => '8' | 9 => '9'
  | 10 => 'a' | 11 => 'b' | 12 => 'c' | 13 => 'd' | 14 => 'e' | 15 => 'f'
  | 16 => 'g' | 17 => 'h' | 18 => 'i' | 19 => 'j' | 20 => 'k' | 21 => 'l'
  | 22 => 'm' | 23 => 'n' | 24 => 'o' | 25 => 'p' | 26 => 'q' | 27 => 'r'
  | 28 => 's' | 29 => 't' | 30 => 'u' | 31 => 'v' | 32 => 'w' | 33 => 'x'
  | 34 => 'y' | 35 => 'z'
  | _ => '0'

/-- The digit alphabet of `base_repr(..., 16).lower()`: 0-9 then a-f. -/
def base16DigitChar (d : Nat) : Char :=
  match d with
  | 0 => '0' | 1 => '1' | 2 => '2' | 3 => '3' | 4 => '4'
  | 5 => '5' | 6 => '6' | 7 => '7' | 8 => '8' | 9 => '9'
  | 10 => 'a' | 11 => 'b' | 12 => 'c' | 13 => 'd' | 14 => 'e' | 15 => 'f'
  | _ => '0'

/-- The value of a lowercase base-36 digit character: the inverse of the
digit table (None for a character outside the alphabet). -/
def base36CharVal (c : Char) : Option Nat :=
  (List.range 36).find? (fun d => base36DigitChar d = c)

/-- The value of a lowercase base-16 digit character. -/
def base16CharVal (c : Char) : Option Nat :=
  (List.range 16).find? (fun d => base16DigitChar d = c)

def parseDigitsWith (f : Char → Option Nat) : List Char → Option (List Nat)
  | [] => some []
  | c :: cs =>
    match f c, parseDigitsWith f cs with
    | some d, some ds => some (d :: ds)
    | _, _ => none

/-- The value of `int(s, b)` for a digit alphabet `f`: the digits read
most significant first, rejecting the empty string and invalid digits. -/
def parseBase (b : Nat) (f : Char → Option Nat) (s : List Char) : Option Nat :=
  if s = [] then none
  else (parseDigitsWith f s).map (fun ds => Nat.ofDigits b ds.reverse)

/-- Canonical base-`b` digits of `n`, most significant first, with 0
rendered as a single zero digit — the digit list behind
`numpy.base_repr`. -/
def baseReprDigits (b n : Nat) : List Nat :=
  if n = 0 then [0] else (Nat.digits b n).reverse

/-- Python `str.zfill(k)` on a character list. -/
def zfillChars (k : Nat) (s : List Char) : List Char :=
  List.replicate (k - s.length) '0' ++ s

/-- Left-pad a digit list with zero digits to length `k`. -/
def zfillDigits (k : Nat) (l : List Nat) : List Nat :=
  List.replicate (k - l.length) 0 ++ l

/-- Mirrors `Util.base36tobase16`:
`base_repr(int(number, 36), 16).lower().zfill(40)`. -/
def base36tobase16 (s : List Char) : Option (List Char) :=
  (parseBase 36 base36CharVal s).map
    (fun n => zfillChars 40 ((baseReprDigits 16 n).map base16DigitChar))

/-- Mirrors `Util.base16tobase36`:
`base_repr(int(number, 16), 36).lower().zfill(31)`. -/
def base16tobase36 (s : List Char) : Option (List Char) :=
  (parseBase 16 base16CharVal s).map
    (fun n => zfillChars 31 ((baseReprDigits 36 n).map base36DigitChar))

/-! ## Concrete inputs used by the closed theorems below -/

/-- A sample public commonswiki file record, parameterised by its hashes
and upload timestamp. -/
def exFile (sh1 sh256 : Option String) (ts : Option Nat) : File :=
  { wiki := "commonswiki", upload_name := some ("Test6.jpg"), size := some 100,
    type := "image", status := "public", upload_timestamp := ts,
    archived_timestamp := none, deleted_timestamp := none,
    sha1 := sh1, sha256 := sh256, md5 := none,
    storage_container := some ("container1"), storage_path := some ("Test6.jpg") }

/-- An incoming file with no sha1 hash. -/
def fileNoSha1 : File := exFile none none (some 20230214111701)

/-- An incoming file whose sha1 matches no stored row. -/
def fileFreshSha1 : File := exFile (some ("aa")) none (some 20230214111701)

/-- An incoming file with a sha1 but a null upload timestamp. -/
def fileNoTimestamp : File := exFile (some ("aa")) none none

/-- A stored live row carrying the same wiki, sha1 and size as
`fileNoTimestamp`. -/
def rowSameSha1 : FilesRow :=
  { id := 1, file := exFile (some ("aa")) none (some 20230214111701),
    backup_status := "pending" }

/-- A file whose content hashes are both known (as after the pipeline's
checksum step). -/
def fileHashed : File := exFile (some ("aa")) (some ("bb")) (some 20230214111701)

/-- A second hashed file, for two-entry batches. -/
def fileHashed2 : File := exFile (some ("cc")) (some ("dd")) (some 20230214111702)

/-- One processing row holding `fileHashed`. -/
def dbOneProcessing : DB :=
  { files := [{ id := 1, file := fileHashed, backup_status := "processing" }],
    backups := [] }

/-- Two processing rows holding `fileHashed` and `fileHashed2`. -/
def dbTwoProcessing : DB :=
  { files := [{ id := 1, file := fileHashed, backup_status := "processing" },
              { id := 2, file := fileHashed2, backup_status := "processing" }],
    backups := [] }

/-- The backedup transition for row 1. -/
def entryBackedup1 : StatusEntry :=
  { id := 1, file := fileHashed, status := "backedup", location := 1 }

/-- The error transition for row 2. -/
def entryError2 : StatusEntry :=
  { id := 2, file := fileHashed2, status := "error", location := 0 }

/-- An environment in which the download succeeds and everything after it
also succeeds. -/
def envAllOk : PipelineEnv :=
  { downloadOk := true, existsInBackup := false, encryptOk := true,
    uploadLocation := 1 }

/-- The production URL of the sample backed-up record. -/
def recUrl : String := "https://upload.wikimedia.org/wikipedia/commons/Test6.jpg"

/-- A backed-up record with a live production URL. -/
def recPublic : BackupRec :=
  { wiki := "commonswiki", sha256 := "bb",
    production_url := some recUrl,
    backup_path := "commonswiki/bbb/bb", backup_location := "https://backup1" }

/-- The HEAD probe answering 404 for every URL. -/
def probeAll404 : String → Nat := fun _ => 404

/-- The HEAD probe answering 200 for every URL. -/
def probeAll200 : String → Nat := fun _ => 200

/-- The backup-store existence check answering true for every key. -/
def existsAllTrue : String → Bool := fun _ => true

/-- The backup-store delete answering success for every key. -/
def deleteAllOk : String → Bool := fun _ => true

/-- The stored `error` row used for the re-arm theorem. -/
def rowErrorState : FilesRow :=
  { id := 7, file := fileHashed, backup_status := "error" }

/-- An incoming record that moves `fileHashed` to a new storage path. -/
def fileMoved : File :=
  { fileHashed with storage_path := some ("Test6_moved.jpg") }

/-! # Theorems -/

/-! ## C4: S3.check_file_exists error handling -/

/-- C4 counterexample: on an HTTP 500 ClientError the code returns True —
it reports existence for a failed non-404 request rather than raising. -/
theorem c4_counterexample :
    check_file_exists (HeadResult.clientError 500) = true := by
  decide

/-- C4 amended: `check_file_exists` returns true when the HEAD request
succeeds, false when it fails with code 404, and true (not an exception)
for every other error code. -/
theorem c4_amended (code : Int) :
    check_file_exists HeadResult.success = true ∧
    check_file_exists (HeadResult.clientError 404) = false ∧
    (code ≠ 404 → check_file_exists (HeadResult.clientError code) = true) := by
  refine ⟨rfl, by decide, fun h => ?_⟩
  simp [check_file_exists, h]

/-- C4 witness: the amended statement instantiated at error code 503. -/
theorem c4_witness :
    check_file_exists (HeadResult.clientError 503) = true :=
  (c4_amended 503).2.2 (by decide)

/-! ## C6: the re-arm rule of MySQLMetadata.update -/

/-- C6: an update forces `backup_status = pending` exactly when the
storage address (container or path) changed and the current backup
status is `error`; in every other case the row's backup status is left
untouched. -/
theorem c6_update_rearm (old : FilesRow) (f : File) :
    (((old.file.storage_container ≠ f.storage_container ∨
       old.file.storage_path ≠ f.storage_path) ∧ old.backup_status = "error") →
      (updateFileRow old f).backup_status = "pending") ∧
    (¬ ((old.file.storage_container ≠ f.storage_container ∨
         old.file.storage_path ≠ f.storage_path) ∧ old.backup_status = "error") →
      (updateFileRow old f).backup_status = old.backup_status) := by
  constructor
  · intro h
    simp only [updateFileRow, if_pos h]
  · intro h
    simp only [updateFileRow, if_neg h]

/-- C6 witness: a stored `error` row whose storage path changes is
re-armed to pending, while the same incoming record on a `processing`
row leaves the status alone. -/
theorem c6_witness :
    (updateFileRow rowErrorState fileMoved).backup_status = "pending" ∧
    (updateFileRow { rowErrorState with backup_status := "processing" }
        fileMoved).backup_status = "processing" := by
  constructor
  · exact (c6_update_rearm rowErrorState fileMoved).1 (by decide)
  · exact (c6_update_rearm { rowErrorState with backup_status := "processing" }
      fileMoved).2 (by decide)

/-! ## C7: the big-wiki image ranges -/

/-- C7 counterexample: for commonswiki the boundary list has 182 entries,
not 74 (19 numeric-prefix entries, 26 letters times 6 second characters,
and the 7-element unicode tail). -/
theorem c7_counterexample :
    (get_image_ranges ("commonswiki")).length = 182 ∧
    (get_image_ranges ("commonswiki")).length ≠ 74 := by
  constructor <;> decide

/-- C7 amended: `is_big_wiki("commonswiki")` holds and its boundary list
has exactly 182 entries, beginning
`[None, 0, 05, 1, 15, 19, 20, 2013]`, containing `2020`, containing every
letter A..Z paired with each of `0 c h m q t`, and finishing with the
unicode anchors and None; every non-big wiki gets `[None, None]`. -/
theorem c7_amended :
    isBigWiki ("commonswiki") = true ∧
    (get_image_ranges ("commonswiki")).length = 182 ∧
    (get_image_ranges ("commonswiki")).take 8 =
      [none, some ("0"), some ("05"), some ("1"), some ("15"), some ("19"),
       some ("20"), some ("2013")] ∧
    some ("2020") ∈ get_image_ranges ("commonswiki") ∧
    (imageRangeLetters.all (fun x => imageRangeSeconds.all
      (fun y => (get_image_ranges ("commonswiki")).contains (some (x ++ y))))) = true ∧
    (get_image_ranges ("commonswiki")).drop 175 =
      [some ("^"), some ("В"), some ("Л"), some ("С"), some ("Ե"),
       some ("儀"), none] ∧
    (∀ w, isBigWiki w = false → get_image_ranges w = [none, none]) := by
  refine ⟨by decide, by decide, by decide, by decide, by decide, by decide, ?_⟩
  intro w hw
  simp [get_image_ranges, hw]

/-- C7 witness: aawiki is not a big wiki and receives the single
unbounded range. -/
theorem c7_witness :
    get_image_ranges ("aawiki") = [none, none] :=
  c7_amended.2.2.2.2.2.2 ("aawiki") (by decide)

/-! ## C1 and C10: check_and_update classification -/

/-- C1 counterexample: an incoming file whose sha1 is None is not
inserted — the loop body hits `continue` before the match lookup — and it
does not contribute to the returned updated+inserted total. -/
theorem c1_counterexample :
    classifyFile [] fileNoSha1 ≠ CheckAction.insertNew ∧
    classifyFile [] fileNoSha1 = CheckAction.skip ∧
    checkAndUpdateCount [] [fileNoSha1] = 0 := by
  refine ⟨by decide, by decide, by decide⟩

/-- C1 amended: an incoming file whose sha1 is None is skipped outright
(neither inserted nor counted), unlike a file whose non-null sha1 has no
match among the wiki's live rows, which is inserted as a new row. -/
theorem c1_amended (rows : List FilesRow) (f : File) :
    (f.sha1 = none →
      classifyFile rows f = CheckAction.skip ∧ checkAndUpdateCount rows [f] = 0) ∧
    (∀ v, f.sha1 = some v → (∀ r ∈ rows, r.file.sha1 ≠ some v) →
      classifyFile rows f = CheckAction.insertNew) := by
  constructor
  · intro h
    constructor
    · simp [classifyFile, h]
    · simp [checkAndUpdateCount, checkAndUpdateLists, classifyFile, h]
  · intro v hv hr
    have hne : ¬ (f.sha1 = none) := by simp [hv]
    have hm : sha1Matches rows f = [] := by
      rw [sha1Matches, List.filter_eq_nil_iff]
      intro r hmem
      have := hr r hmem
      simp [hv]
      intro _
      simpa [hv] using this
    simp [classifyFile, hne, hm]

/-- C1 witness: the amended statement instantiated for both branches —
the no-sha1 file against the sample row, and the fresh-sha1 file against
an empty row set. -/
theorem c1_witness :
    (classifyFile [rowSameSha1] fileNoSha1 = CheckAction.skip ∧
      checkAndUpdateCount [rowSameSha1] [fileNoSha1] = 0) ∧
    classifyFile [] fileFreshSha1 = CheckAction.insertNew := by
  constructor
  · exact (c1_amended [rowSameSha1] fileNoSha1).1 rfl
  · exact (c1_amended [] fileFreshSha1).2 "aa" rfl (by simp)

/-- C10: an incoming file with a null upload timestamp never passes the
candidate filter, so (when it has a sha1) it is classified for insertion
as a new row even when an otherwise identical live row exists. -/
theorem c10_null_timestamp_insert (rows : List FilesRow) (f : File) (v : String)
    (hts : f.upload_timestamp = none) (hv : f.sha1 = some v) :
    classifyFile rows f = CheckAction.insertNew := by
  have hne : ¬ (f.sha1 = none) := by simp [hv]
  have hcand : candidateMatches rows f = [] := by
    rw [candidateMatches, List.filter_eq_nil_iff]
    intro r hmem
    simp [hts]
  by_cases hm : sha1Matches rows f = []
  · simp [classifyFile, hne, hm]
  · simp [classifyFile, hne, hm, hcand]

/-- C10 witness: a live row identical in wiki, sha1 and size exists, yet
the timestamp-less incoming file is inserted again. -/
theorem c10_witness :
    classifyFile [rowSameSha1] fileNoTimestamp = CheckAction.insertNew :=
  c10_null_timestamp_insert [rowSameSha1] fileNoTimestamp "aa" rfl rfl

/-! ## C3: temp-file cleanup in the backup_wiki per-file loop -/

/-- C3 (code bug, evaluated): main's `download_path` is initialised to
None and never reassigned — `download_and_backup` rebinds only its own
local parameter — so the `finally` block never calls `os.remove`, and
whenever the download succeeded at least one temporary file is left on
disk for every outcome. -/
theorem c3_cleanup_never_runs (f : File) (tmp_dir : String) (nonPublic : Bool)
    (env : PipelineEnv) :
    (mainPerFile f tmp_dir nonPublic env).removeAttempted = false ∧
    (env.downloadOk = true → (mainPerFile f tmp_dir nonPublic env).tmpFilesLeft ≠ []) := by
  constructor
  · rfl
  · intro h
    simp only [mainPerFile, tmpFilesCreated, download_file_from_production, h,
      if_true, Option.isSome]
    by_cases he : env.existsInBackup <;>
      by_cases hp : nonPublic <;>
        by_cases hk : env.encryptOk <;>
          simp [he, hp, hk]

/-- C3 witness: with a successful download and a fully successful backup,
no removal is attempted and the downloaded file is left behind. -/
theorem c3_witness :
    (mainPerFile fileHashed "/srv/mediabackup/1234" false envAllOk).removeAttempted
        = false ∧
    (mainPerFile fileHashed "/srv/mediabackup/1234" false envAllOk).tmpFilesLeft
        ≠ [] := by
  refine ⟨(c3_cleanup_never_runs fileHashed "/srv/mediabackup/1234" false envAllOk).1,
    (c3_cleanup_never_runs fileHashed "/srv/mediabackup/1234" false envAllOk).2 rfl⟩

/-! ## Helper lemmas about update_status -/

theorem setBackupStatus_map_id (rows : List FilesRow) (fid : Nat) (st : String) :
    (setBackupStatus rows fid st).map (fun r => r.id) = rows.map (fun r => r.id) := by
  unfold setBackupStatus
  rw [List.map_map]
  apply List.map_congr_left
  intro r _
  by_cases h : r.id = fid <;> simp [h]

theorem mem_setBackupStatus {rows : List FilesRow} {fid : Nat} {st : String}
    {r' : FilesRow} (h : r' ∈ setBackupStatus rows fid st) :
    ∃ r ∈ rows, r' = (if r.id = fid then { r with backup_status := st } else r) := by
  unfold setBackupStatus at h
  obtain ⟨r, hr, hmap⟩ := List.mem_map.mp h
  exact ⟨r, hr, hmap.symm⟩

theorem rowsMatching_le_one {rows : List FilesRow} (fid : Nat)
    (h : (rows.map (fun r => r.id)).Nodup) : rowsMatching rows fid ≤ 1 := by
  induction rows with
  | nil => simp [rowsMatching]
  | cons r t ih =>
    rw [List.map_cons, List.nodup_cons] at h
    by_cases hid : r.id = fid
    · have hnil : t.filter (fun r => decide (r.id = fid)) = [] := by
        rw [List.filter_eq_nil_iff]
        intro a ha
        have hmem : a.id ∈ t.map (fun r => r.id) := List.mem_map_of_mem _ ha
        simp only [decide_eq_true_eq]
        intro hfid
        exact h.1 (by rw [hid, ← hfid]; exact hmem)
      simp [rowsMatching, List.filter_cons, hid, hnil]
    · have := ih h.2
      simpa [rowsMatching, List.filter_cons, hid] using this

theorem setBackupStatus_of_no_match {rows : List FilesRow} {fid : Nat} (st : String)
    (h : rowsMatching rows fid = 0) : setBackupStatus rows fid st = rows := by
  have hnone : ∀ r ∈ rows, ¬ (r.id = fid) := by
    intro r hr hid
    have : r ∈ rows.filter (fun r => decide (r.id = fid)) :=
      List.mem_filter.mpr ⟨hr, by simpa using hid⟩
    rw [rowsMatching, List.length_eq_zero] at h
    simp [h] at this
  unfold setBackupStatus
  have hcongr : ∀ r ∈ rows,
      (if r.id = fid then ({ r with backup_status := st } : FilesRow) else r) = r := by
    intro r hr
    exact if_neg (hnone r hr)
  rw [List.map_congr_left hcongr]
  simp

/-- The one-step unfolding of `updateStatus` on a non-empty entry list,
with the let bindings of the definition inlined. -/
theorem updateStatus_cons (db : DB) (e : StatusEntry) (rest : List StatusEntry)
    (oracle : List Bool) :
    updateStatus db (e :: rest) oracle =
      if rowsMatching db.files e.id ≠ 1 then
        Except.error { db with files := setBackupStatus db.files e.id e.status }
      else if e.status = "backedup" then
        if oracle.headD false then
          Except.ok ({ db with files := setBackupStatus db.files e.id e.status }, -1)
        else
          updateStatus
            (if hasBackupRow db.backups e.file.wiki e.file.sha256 then
              { db with files := setBackupStatus db.files e.id e.status }
            else
              { files := setBackupStatus db.files e.id e.status,
                backups := db.backups ++
                  [⟨e.location, e.file.wiki, e.file.sha256, e.file.sha1⟩] })
            rest oracle.tail
      else updateStatus { db with files := setBackupStatus db.files e.id e.status }
             rest oracle := rfl

theorem hasBackupRow_append_left {bs : List BackupsRow} (bs2 : List BackupsRow)
    {w : String} {s : Option String} (h : hasBackupRow bs w s = true) :
    hasBackupRow (bs ++ bs2) w s = true := by
  unfold hasBackupRow at *
  rw [List.any_append, h, Bool.true_or]

theorem hasBackupRow_append_hit (bs : List BackupsRow) (loc : Int) (w : String)
    (s s1 : Option String) :
    hasBackupRow (bs ++ [⟨loc, w, s, s1⟩]) w s = true := by
  unfold hasBackupRow
  rw [List.any_append]
  simp

/-! ## C2: the backedup-implies-ledger-row invariant -/

/-- C2 counterexample: starting from a state satisfying the invariant,
a backedup transition whose ledger INSERT fails with a driver error
(swallowed as `return -1`) leaves the row in `backedup` with no matching
`backups` row — the invariant does not survive this error path. -/
theorem c2_counterexample :
    ledgerInvariant dbOneProcessing = true ∧
    resultCode (updateStatus dbOneProcessing [entryBackedup1] [true]) = some (-1) ∧
    ledgerInvariant (resultDB (updateStatus dbOneProcessing [entryBackedup1] [true]))
      = false := by
  refine ⟨by decide, by decide, by decide⟩

/-- C2 amended: `update_status` preserves the invariant that every
`backedup` row has a `(wiki, sha256)` ledger row, provided no
ledger-insert driver error occurs (a unique-key conflict is fine: it
means the matching ledger row already exists); row ids are unique and
each backedup entry carries the file of its row.  On a driver-error
insert path the affected row is left `backedup` without its ledger row
(see the counterexample). -/
theorem c2_amended (entries : List StatusEntry) (db : DB) (oracle : List Bool)
    (hinv : ledgerInvariant db = true)
    (hids : (db.files.map (fun r => r.id)).Nodup)
    (hmatch : ∀ e ∈ entries, e.status = "backedup" →
      ∀ r ∈ db.files, r.id = e.id →
        r.file.wiki = e.file.wiki ∧ r.file.sha256 = e.file.sha256)
    (horacle : ∀ b ∈ oracle, b = false) :
    ledgerInvariant (resultDB (updateStatus db entries oracle)) = true := by
  induction entries generalizing db oracle with
  | nil => simpa [updateStatus, resultDB] using hinv
  | cons e rest ih =>
    have hle := rowsMatching_le_one e.id hids
    -- the invariant survives the status UPDATE together with a ledger
    -- that covers the new (wiki, sha256) when the row becomes backedup
    have hstep : ∀ bs2 : List BackupsRow,
        (e.status = "backedup" →
          hasBackupRow (db.backups ++ bs2) e.file.wiki e.file.sha256 = true) →
        ledgerInvariant
          { files := setBackupStatus db.files e.id e.status,
            backups := db.backups ++ bs2 } = true := by
      intro bs2 hcover
      rw [ledgerInvariant, List.all_eq_true]
      intro r' hr'
      obtain ⟨r, hr, hEq⟩ := mem_setBackupStatus hr'
      by_cases hid : r.id = e.id
      · subst hEq
        rw [if_pos hid]
        by_cases hb : e.status = "backedup"
        · have hws := hmatch e (List.mem_cons_self e rest) hb r hr hid
          have hcond : ({ r with backup_status := e.status } : FilesRow).backup_status
              = "backedup" := hb
          rw [if_pos hcond]
          show hasBackupRow (db.backups ++ bs2) r.file.wiki r.file.sha256 = true
          rw [hws.1, hws.2]
          exact hcover hb
        · rw [if_neg hb]
      · subst hEq
        rw [if_neg hid]
        by_cases hb : r.backup_status = "backedup"
        · have hold := (List.all_eq_true.mp hinv) r hr
          rw [if_pos hb] at hold
          rw [if_pos hb]
          exact hasBackupRow_append_left bs2 hold
        · rw [if_neg hb]
    have hidsNext : ((setBackupStatus db.files e.id e.status).map
        (fun r => r.id)).Nodup := by
      rw [setBackupStatus_map_id]
      exact hids
    have hmatchNext : ∀ e2 ∈ rest, e2.status = "backedup" →
        ∀ r ∈ setBackupStatus db.files e.id e.status, r.id = e2.id →
          r.file.wiki = e2.file.wiki ∧ r.file.sha256 = e2.file.sha256 := by
      intro e2 he2 hb r' hr' hid
      obtain ⟨r, hr, hEq⟩ := mem_setBackupStatus hr'
      have hfile : r'.file = r.file := by
        subst hEq
        by_cases h : r.id = e.id <;> simp [h]
      have hid0 : r.id = e2.id := by
        subst hEq
        by_cases h : r.id = e.id <;> simp_all
      rw [hfile]
      exact hmatch e2 (List.mem_cons_of_mem e he2) hb r hr hid0
    rw [updateStatus_cons]
    by_cases hc : rowsMatching db.files e.id ≠ 1
    -- the UPDATE affected an unexpected number of rows: MySQLQueryError
    -- is raised; with unique ids that number is 0, so the state is
    -- unchanged and the invariant still holds
    · have hz : rowsMatching db.files e.id = 0 := by omega
      rw [if_pos hc]
      show ledgerInvariant { db with
        files := setBackupStatus db.files e.id e.status } = true
      rw [setBackupStatus_of_no_match e.status hz]
      exact hinv
    · rw [if_neg hc]
      by_cases hb : e.status = "backedup"
      · rw [if_pos hb]
        have hhead : oracle.headD false = false := by
          cases oracle with
          | nil => rfl
          | cons o t => exact horacle o (List.mem_cons_self o t)
        have htail : ∀ b ∈ oracle.tail, b = false := by
          intro b hbmem
          exact horacle b (List.mem_of_mem_tail hbmem)
        rw [if_neg (by rw [hhead]; exact Bool.false_ne_true)]
        by_cases hdup :
            hasBackupRow db.backups e.file.wiki e.file.sha256 = true
        · rw [if_pos hdup]
          have hinv2 := hstep [] (fun _ => by
            rw [List.append_nil]
            exact hdup)
          rw [List.append_nil] at hinv2
          exact ih { files := setBackupStatus db.files e.id e.status,
                     backups := db.backups } _ hinv2 hidsNext hmatchNext htail
        · rw [if_neg hdup]
          exact ih _ _
            (hstep [⟨e.location, e.file.wiki, e.file.sha256, e.file.sha1⟩]
              (fun _ => hasBackupRow_append_hit db.backups e.location e.file.wiki
                e.file.sha256 e.file.sha1))
            hidsNext hmatchNext htail
      · rw [if_neg hb]
        have hinv2 := hstep [] (fun h => absurd h hb)
        rw [List.append_nil] at hinv2
        exact ih { files := setBackupStatus db.files e.id e.status,
                   backups := db.backups } _ hinv2 hidsNext hmatchNext horacle

/-- C2 witness: the amended statement run on the one-row state with a
successful insert: the row flips to backedup and the invariant holds. -/
theorem c2_witness :
    ledgerInvariant (resultDB (updateStatus dbOneProcessing [entryBackedup1] [false]))
      = true :=
  c2_amended [entryBackedup1] dbOneProcessing [false] (by decide) (by decide)
    (by decide) (by decide)

/-! ## C5: batch behaviour of update_status on insert errors -/

/-- C5 counterexample: when the first entry's ledger insert fails with a
driver error, `update_status` returns -1 at once: the second entry of the
batch is never applied (its row stays `processing` instead of moving to
its new status), so the batch is aborted rather than continued. -/
theorem c5_counterexample :
    resultCode (updateStatus dbTwoProcessing [entryBackedup1, entryError2] [true])
      = some (-1) ∧
    (resultDB (updateStatus dbTwoProcessing [entryBackedup1, entryError2]
        [true])).files.map (fun r => r.backup_status) = ["backedup", "processing"] := by
  refine ⟨by decide, by decide⟩

/-- C5 amended: a unique-key conflict on the backups insert is swallowed
and the batch continues with the remaining entries, but any other insert
error makes `update_status` return -1 immediately, leaving every
remaining entry of the batch unprocessed. -/
theorem c5_amended (db : DB) (e : StatusEntry) (rest : List StatusEntry)
    (oracle : List Bool) (h1 : rowsMatching db.files e.id = 1)
    (h2 : e.status = "backedup") :
    (oracle.headD false = true →
      updateStatus db (e :: rest) oracle =
        Except.ok ({ db with files := setBackupStatus db.files e.id e.status }, -1)) ∧
    (oracle.headD false = false →
      hasBackupRow db.backups e.file.wiki e.file.sha256 = true →
      updateStatus db (e :: rest) oracle =
        updateStatus { db with files := setBackupStatus db.files e.id e.status }
          rest oracle.tail) := by
  constructor
  · intro hh
    rw [updateStatus_cons, if_neg (fun hne => hne h1), if_pos h2, if_pos hh]
  · intro hh hdup
    rw [updateStatus_cons, if_neg (fun hne => hne h1), if_pos h2,
      if_neg (by rw [hh]; exact Bool.false_ne_true), if_pos hdup]

/-- C5 witness: the amended statement instantiated on the one-row state
with a failing insert: the call returns -1 with only the first row
updated. -/
theorem c5_witness :
    updateStatus dbOneProcessing [entryBackedup1] [true] =
      Except.ok ({ dbOneProcessing with
        files := setBackupStatus dbOneProcessing.files 1 "backedup" }, -1) :=
  (c5_amended dbOneProcessing entryBackedup1 [] [true] (by decide) rfl).1 rfl

/-! ## Helper lemmas about the deletion flow -/

theorem checkEvents_shape (probe : String → Nat) (files : List BackupRec) :
    ∀ e ∈ checkEvents probe files,
      (∃ u, e = DelEvent.probe u none) ∨ e = DelEvent.exitSession 6 := by
  induction files with
  | nil => intro e he; simp [checkEvents] at he
  | cons f rest ih =>
    intro e he
    rw [checkEvents] at he
    cases hurl : f.production_url with
    | none =>
      rw [hurl] at he
      exact ih e he
    | some u =>
      rw [hurl] at he
      have he2 : e ∈ (if probe u ≠ 404
          then [DelEvent.probe u none, DelEvent.exitSession 6]
          else DelEvent.probe u none :: checkEvents probe rest) := he
      by_cases hp : probe u ≠ 404
      · rw [if_pos hp] at he2
        rcases List.mem_cons.mp he2 with h | h2
        · exact Or.inl ⟨u, h⟩
        · rcases List.mem_cons.mp h2 with h | h3
          · exact Or.inr h
          · simp at h3
      · rw [if_neg hp] at he2
        rcases List.mem_cons.mp he2 with h | h2
        · exact Or.inl ⟨u, h⟩
        · exact ih e h2

theorem checkAborts_iff (probe : String → Nat) (files : List BackupRec) :
    checkAborts probe files = true ↔
      ∃ f ∈ files, ∃ u, f.production_url = some u ∧ probe u ≠ 404 := by
  rw [checkAborts, List.any_eq_true]
  constructor
  · rintro ⟨f, hf, hp⟩
    cases hurl : f.production_url with
    | none => rw [hurl] at hp; simp at hp
    | some u =>
      rw [hurl] at hp
      exact ⟨f, hf, u, hurl, by simpa using hp⟩
  · rintro ⟨f, hf, u, hurl, hp⟩
    exact ⟨f, hf, by rw [hurl]; simpa using hp⟩

theorem exit_mem_checkEvents (probe : String → Nat) (files : List BackupRec)
    (h : checkAborts probe files = true) :
    DelEvent.exitSession 6 ∈ checkEvents probe files := by
  induction files with
  | nil => simp [checkAborts] at h
  | cons f rest ih =>
    rw [checkEvents]
    cases hurl : f.production_url with
    | none =>
      apply ih
      rw [checkAborts, List.any_cons, hurl] at h
      simpa [checkAborts] using h
    | some u =>
      show DelEvent.exitSession 6 ∈ (if probe u ≠ 404
        then [DelEvent.probe u none, DelEvent.exitSession 6]
        else DelEvent.probe u none :: checkEvents probe rest)
      by_cases hp : probe u ≠ 404
      · rw [if_pos hp]
        simp
      · rw [if_neg hp]
        rw [checkAborts, List.any_cons, hurl] at h
        have : checkAborts probe rest = true := by
          rcases Bool.or_eq_true_iff.mp h with h1 | h1
        -- the head cannot have fired: its probe answered 404
          · exact absurd (by simpa using h1) hp
          · exact h1
        exact List.mem_cons_of_mem _ (ih this)

theorem probe_mem_checkEvents (probe : String → Nat) (files : List BackupRec)
    (h : checkAborts probe files = false) :
    ∀ f ∈ files, ∀ u, f.production_url = some u →
      DelEvent.probe u none ∈ checkEvents probe files := by
  induction files with
  | nil => intro f hf; simp at hf
  | cons g rest ih =>
    intro f hf u hurl
    rw [checkAborts, List.any_cons, Bool.or_eq_false_iff] at h
    rw [checkEvents]
    cases hg : g.production_url with
    | none =>
      rcases List.mem_cons.mp hf with hf | hf
      · subst hf; rw [hg] at hurl; exact absurd hurl (by simp)
      · exact ih (by simpa [checkAborts] using h.2) f hf u hurl
    | some u0 =>
      have hp : ¬ (probe u0 ≠ 404) := by
        have := h.1
        rw [hg] at this
        simpa using this
      show DelEvent.probe u none ∈ (if probe u0 ≠ 404
        then [DelEvent.probe u0 none, DelEvent.exitSession 6]
        else DelEvent.probe u0 none :: checkEvents probe rest)
      rw [if_neg hp]
      rcases List.mem_cons.mp hf with hf | hf
      · subst hf
        rw [hg] at hurl
        injection hurl with hu
        subst hu
        exact List.mem_cons_self _ _
      · exact List.mem_cons_of_mem _
          (ih (by simpa [checkAborts] using h.2) f hf u hurl)

theorem deleteLoop_shape (exF : String → Bool) (delOk : String → Bool) (dry : Bool)
    (files acc : List BackupRec) :
    ∀ e ∈ deleteLoop exF delOk dry files acc, ∃ k, e = DelEvent.deleteObject k := by
  induction files generalizing acc with
  | nil => intro e he; simp [deleteLoop] at he
  | cons f rest ih =>
    intro e he
    rw [deleteLoop] at he
    by_cases h1 : ¬ exF f.backup_path ∧
        ¬ acc.any (fun x => decide (x.wiki = f.wiki ∧ x.sha256 = f.sha256)) = true
    · rw [if_pos h1] at he
      exact ih acc e he
    · rw [if_neg h1] at he
      by_cases h2 : dry
      · rw [if_pos h2] at he
        exact ih (acc ++ [f]) e he
      · rw [if_neg h2] at he
        by_cases h3 : delOk f.backup_path
        · rw [if_pos h3] at he
          rcases List.mem_cons.mp he with h | h
          · exact ⟨f.backup_path, h⟩
          · exact ih (acc ++ [f]) e h
        · rw [if_neg h3] at he
          rcases List.mem_cons.mp he with h | h
          · exact ⟨f.backup_path, h⟩
          · exact ih acc e h

/-! ## C9: the pre-deletion production check -/

/-- C9 counterexample: the HEAD probe of the deletion flow as driven by
delete-media-file (`InteractiveQuery.check_deleted_from_production`)
carries no timeout argument at all: the trace of a one-file session whose
URL answers 404 contains the probe with timeout None, and no probe with
the claimed 30-second timeout. -/
theorem c9_counterexample :
    delete_files probeAll404 existsAllTrue deleteAllOk true [recPublic] =
      [DelEvent.probe recUrl none] ∧
    DelEvent.probe recUrl (some 30) ∉
      delete_files probeAll404 existsAllTrue deleteAllOk true [recPublic] := by
  refine ⟨by decide, by decide⟩

/-- C9 amended: in the deletion flow every file's non-null production_url
is probed with an HTTP HEAD carrying no timeout before any
BackupStore.delete call; any response status other than 404 aborts the
entire session with exit code 6 before any delete, and when all probes
answer 404 every non-null URL has indeed been probed. -/
theorem c9_amended (probe : String → Nat) (exF : String → Bool)
    (delOk : String → Bool) (dry : Bool) (files : List BackupRec) :
    (∀ u t, DelEvent.probe u t ∈ delete_files probe exF delOk dry files → t = none) ∧
    ((∃ f ∈ files, ∃ u, f.production_url = some u ∧ probe u ≠ 404) →
      DelEvent.exitSession 6 ∈ delete_files probe exF delOk dry files ∧
      ∀ k, DelEvent.deleteObject k ∉ delete_files probe exF delOk dry files) ∧
    ((∀ f ∈ files, ∀ u, f.production_url = some u → probe u = 404) →
      ∀ f ∈ files, ∀ u, f.production_url = some u →
        DelEvent.probe u none ∈ delete_files probe exF delOk dry files) := by
  refine ⟨?_, ?_, ?_⟩
  · intro u t hmem
    rw [delete_files] at hmem
    by_cases ha : checkAborts probe files = true
    · rw [if_pos ha] at hmem
      rcases checkEvents_shape probe files _ hmem with ⟨u0, h⟩ | h
      · injection h with h1 h2
      · exact absurd h (by simp)
    · rw [if_neg ha] at hmem
      rcases List.mem_append.mp hmem with h | h
      · rcases checkEvents_shape probe files _ h with ⟨u0, h0⟩ | h0
        · injection h0 with h1 h2
        · exact absurd h0 (by simp)
      · obtain ⟨k, hk⟩ := deleteLoop_shape exF delOk dry files [] _ h
        exact absurd hk (by simp)
  · intro hex
    have ha : checkAborts probe files = true := (checkAborts_iff probe files).mpr hex
    rw [delete_files, if_pos ha]
    refine ⟨exit_mem_checkEvents probe files ha, ?_⟩
    intro k hk
    rcases checkEvents_shape probe files _ hk with ⟨u0, h0⟩ | h0 <;> simp at h0
  · intro hall f hf u hurl
    have ha : checkAborts probe files = false := by
      cases hcase : checkAborts probe files with
      | false => rfl
      | true =>
        obtain ⟨g, hg, u0, hgu, hgp⟩ := (checkAborts_iff probe files).mp hcase
        exact absurd (hall g hg u0 hgu) hgp
    rw [delete_files, if_neg (by rw [ha]; exact Bool.false_ne_true)]
    exact List.mem_append_left _ (probe_mem_checkEvents probe files ha f hf u hurl)

/-- C9 witness: a session whose only file still answers HTTP 200 exits
with code 6 and performs no delete call. -/
theorem c9_witness :
    DelEvent.exitSession 6 ∈
      delete_files probeAll200 existsAllTrue deleteAllOk false [recPublic] ∧
    ∀ k, DelEvent.deleteObject k ∉
      delete_files probeAll200 existsAllTrue deleteAllOk false [recPublic] :=
  (c9_amended probeAll200 existsAllTrue deleteAllOk false [recPublic]).2.1
    ⟨recPublic, List.mem_singleton.mpr rfl, recUrl, rfl, by decide⟩

/-! ## C8: the base-36 / base-16 round trip -/

theorem base36CharVal_lt {c : Char} {d : Nat} (h : base36CharVal c = some d) :
    d < 36 :=
  List.mem_range.mp (List.mem_of_find?_eq_some h)

theorem base16CharVal_lt {c : Char} {d : Nat} (h : base16CharVal c = some d) :
    d < 16 :=
  List.mem_range.mp (List.mem_of_find?_eq_some h)

theorem base36DigitChar_val {c : Char} {d : Nat} (h : base36CharVal c = some d) :
    base36DigitChar d = c := by
  have := List.find?_some h
  simpa using this

theorem base16DigitChar_val {c : Char} {d : Nat} (h : base16CharVal c = some d) :
    base16DigitChar d = c := by
  have := List.find?_some h
  simpa using this

theorem base36CharVal_digitChar {d : Nat} (h : d < 36) :
    base36CharVal (base36DigitChar d) = some d := by
  interval_cases d <;> rfl

theorem base16CharVal_digitChar {d : Nat} (h : d < 16) :
    base16CharVal (base16DigitChar d) = some d := by
  interval_cases d <;> rfl

theorem parseDigitsWith_exists {f : Char → Option Nat} :
    ∀ {s : List Char}, (∀ c ∈ s, (f c).isSome) →
      ∃ ds, parseDigitsWith f s = some ds := by
  intro s
  induction s with
  | nil => intro _; exact ⟨[], rfl⟩
  | cons c cs ih =>
    intro h
    obtain ⟨d, hd⟩ := Option.isSome_iff_exists.mp (h c (List.mem_cons_self c cs))
    obtain ⟨ds, hds⟩ := ih (fun x hx => h x (List.mem_cons_of_mem c hx))
    exact ⟨d :: ds, by rw [parseDigitsWith, hd, hds]⟩

theorem parseDigitsWith_spec {f : Char → Option Nat} {g : Nat → Char} {b : Nat}
    (hg : ∀ {c d}, f c = some d → g d = c)
    (hlt : ∀ {c d}, f c = some d → d < b) :
    ∀ {s : List Char} {ds : List Nat}, parseDigitsWith f s = some ds →
      ds.map g = s ∧ (∀ d ∈ ds, d < b) ∧ ds.length = s.length := by
  intro s
  induction s with
  | nil =>
    intro ds h
    rw [parseDigitsWith] at h
    injection h with h
    subst h
    exact ⟨rfl, by simp, rfl⟩
  | cons c cs ih =>
    intro ds h
    rw [parseDigitsWith] at h
    cases hf : f c with
    | none => rw [hf] at h; simp at h
    | some d =>
      rw [hf] at h
      cases hp : parseDigitsWith f cs with
      | none => rw [hp] at h; simp at h
      | some ds0 =>
        rw [hp] at h
        injection h with h
        subst h
        obtain ⟨h1, h2, h3⟩ := ih hp
        refine ⟨?_, ?_, ?_⟩
        · rw [List.map_cons, h1, hg hf]
        · intro x hx
          rcases List.mem_cons.mp hx with hx | hx
          · subst hx; exact hlt hf
          · exact h2 x hx
        · simp [h3]

theorem parseDigitsWith_map {f : Char → Option Nat} {g : Nat → Char} {b : Nat}
    (hfg : ∀ {d}, d < b → f (g d) = some d) :
    ∀ {l : List Nat}, (∀ d ∈ l, d < b) → parseDigitsWith f (l.map g) = some l := by
  intro l
  induction l with
  | nil => intro _; rfl
  | cons d t ih =>
    intro h
    rw [List.map_cons, parseDigitsWith, hfg (h d (List.mem_cons_self d t)),
      ih (fun x hx => h x (List.mem_cons_of_mem d hx))]

theorem parseDigitsWith_replicate_append {f : Char → Option Nat}
    (h0 : f '0' = some 0) (k : Nat) {rest : List Char} {ds : List Nat}
    (h : parseDigitsWith f rest = some ds) :
    parseDigitsWith f (List.replicate k '0' ++ rest) =
      some (List.replicate k 0 ++ ds) := by
  induction k with
  | zero => simpa using h
  | succ m ih =>
    rw [List.replicate_succ, List.cons_append, parseDigitsWith, h0, ih]
    rfl

theorem ofDigits_replicate_zero (b k : Nat) :
    Nat.ofDigits b (List.replicate k 0) = 0 := by
  induction k with
  | zero => rfl
  | succ m ih => rw [List.replicate_succ, Nat.ofDigits_cons, ih]; simp

theorem ofDigits_append_zeros (b : Nat) (l : List Nat) (k : Nat) :
    Nat.ofDigits b (l ++ List.replicate k 0) = Nat.ofDigits b l := by
  rw [Nat.ofDigits_append, ofDigits_replicate_zero]
  simp

theorem baseRepr_reverse_val (b n : Nat) :
    Nat.ofDigits b (baseReprDigits b n).reverse = n := by
  by_cases h : n = 0
  · subst h; rfl
  · rw [baseReprDigits, if_neg h, List.reverse_reverse, Nat.ofDigits_digits]

theorem baseRepr_lt {b n : Nat} (hb : 1 < b) :
    ∀ d ∈ baseReprDigits b n, d < b := by
  intro d hd
  by_cases h : n = 0
  · subst h
    rw [baseReprDigits, if_pos rfl] at hd
    rcases List.mem_singleton.mp hd with rfl
    omega
  · rw [baseReprDigits, if_neg h, List.mem_reverse] at hd
    exact Nat.digits_lt_base hb hd

theorem baseRepr_ne_nil (b n : Nat) : baseReprDigits b n ≠ [] := by
  by_cases h : n = 0
  · subst h; simp [baseReprDigits]
  · rw [baseReprDigits, if_neg h]
    simpa using Nat.digits_ne_nil_iff_ne_zero.mpr h

theorem digits_length_le {b n k : Nat} (hb : 1 < b) (h : n < b ^ k) :
    (Nat.digits b n).length ≤ k := by
  by_cases hn : n = 0
  · subst hn; simp
  · by_contra hlen
    push_neg at hlen
    have h1 : b ^ (Nat.digits b n).length ≤ b * n :=
      Nat.base_pow_length_digits_le b n hb hn
    have h2 : b ^ (k + 1) ≤ b ^ (Nat.digits b n).length :=
      Nat.pow_le_pow_right (by omega) hlen
    have h3 : b * b ^ k ≤ b * n := by
      calc b * b ^ k = b ^ (k + 1) := by ring
        _ ≤ b ^ (Nat.digits b n).length := h2
        _ ≤ b * n := h1
    have h4 : b ^ k ≤ n := Nat.le_of_mul_le_mul_left h3 (by omega)
    omega

theorem baseRepr_length_le {b n k : Nat} (hb : 1 < b) (hk : 1 ≤ k)
    (h : n < b ^ k) : (baseReprDigits b n).length ≤ k := by
  by_cases hn : n = 0
  · subst hn; simpa [baseReprDigits] using hk
  · rw [baseReprDigits, if_neg hn, List.length_reverse]
    exact digits_length_le hb h

theorem zfillDigits_length {k : Nat} {l : List Nat} (h : l.length ≤ k) :
    (zfillDigits k l).length = k := by
  simp [zfillDigits]
  omega

theorem zfillDigits_lt {b k : Nat} {l : List Nat} (hb : 0 < b)
    (h : ∀ d ∈ l, d < b) : ∀ d ∈ zfillDigits k l, d < b := by
  intro d hd
  rcases List.mem_append.mp hd with hd | hd
  · rw [List.eq_of_mem_replicate hd]
    exact hb
  · exact h d hd

theorem zfillDigits_val (b k : Nat) (l : List Nat) :
    Nat.ofDigits b (zfillDigits k l).reverse = Nat.ofDigits b l.reverse := by
  rw [zfillDigits, List.reverse_append, List.reverse_replicate,
    ofDigits_append_zeros]

theorem zfillChars_map {g : Nat → Char} (hg0 : g 0 = '0') (k : Nat)
    (l : List Nat) : zfillChars k (l.map g) = (zfillDigits k l).map g := by
  rw [zfillChars, zfillDigits, List.map_append, List.map_replicate, hg0,
    List.length_map]

theorem ofDigits36_inj : ∀ {l1 l2 : List Nat}, l1.length = l2.length →
    (∀ d ∈ l1, d < 36) → (∀ d ∈ l2, d < 36) →
    Nat.ofDigits 36 l1 = Nat.ofDigits 36 l2 → l1 = l2 := by
  intro l1
  induction l1 with
  | nil =>
    intro l2 hlen _ _ _
    cases l2 with
    | nil => rfl
    | cons d t => simp at hlen
  | cons d1 t1 ih =>
    intro l2 hlen hb1 hb2 hval
    cases l2 with
    | nil => simp at hlen
    | cons d2 t2 =>
      rw [Nat.ofDigits_cons, Nat.ofDigits_cons] at hval
      have hd1 : d1 < 36 := hb1 d1 (List.mem_cons_self d1 t1)
      have hd2 : d2 < 36 := hb2 d2 (List.mem_cons_self d2 t2)
      have hdd : d1 = d2 ∧ Nat.ofDigits 36 t1 = Nat.ofDigits 36 t2 := by
        constructor <;> omega
      have ht : t1 = t2 :=
        ih (by simpa using hlen) (fun x hx => hb1 x (List.mem_cons_of_mem d1 hx))
          (fun x hx => hb2 x (List.mem_cons_of_mem d2 hx)) hdd.2
      rw [hdd.1, ht]

theorem zfill_repr_eq (ds : List Nat) (hlen : ds.length ≤ 31)
    (hlt : ∀ d ∈ ds, d < 36) :
    zfillDigits 31 (baseReprDigits 36 (Nat.ofDigits 36 ds.reverse)) =
      zfillDigits 31 ds := by
  have hvlt : ∀ d ∈ ds.reverse, d < 36 := fun d hd =>
    hlt d (List.mem_reverse.mp hd)
  have hn : Nat.ofDigits 36 ds.reverse < 36 ^ 31 := by
    calc Nat.ofDigits 36 ds.reverse < 36 ^ ds.reverse.length :=
          Nat.ofDigits_lt_base_pow_length (by norm_num) hvlt
      _ ≤ 36 ^ 31 := Nat.pow_le_pow_right (by norm_num)
          (by simpa using hlen)
  have hrlen : (baseReprDigits 36 (Nat.ofDigits 36 ds.reverse)).length ≤ 31 :=
    baseRepr_length_le (by norm_num) (by norm_num) hn
  have hrev := @ofDigits36_inj
    (zfillDigits 31 (baseReprDigits 36 (Nat.ofDigits 36 ds.reverse))).reverse
    (zfillDigits 31 ds).reverse
    (by rw [List.length_reverse, List.length_reverse, zfillDigits_length hrlen,
      zfillDigits_length hlen])
    (fun d hd => zfillDigits_lt (by norm_num) (baseRepr_lt (by norm_num)) d
      (List.mem_reverse.mp hd))
    (fun d hd => zfillDigits_lt (by norm_num) hlt d (List.mem_reverse.mp hd))
    (by rw [zfillDigits_val, zfillDigits_val, baseRepr_reverse_val])
  exact List.reverse_injective hrev

/-- C8: for every nonempty lowercase base-36 string of length at most 31,
converting to base 16 and back yields the original string left-padded
with zeros to 31 characters. -/
theorem c8_roundtrip (s : List Char) (h1 : s ≠ []) (h2 : s.length ≤ 31)
    (h3 : ∀ c ∈ s, (base36CharVal c).isSome) :
    (base36tobase16 s).bind base16tobase36 = some (zfillChars 31 s) := by
  obtain ⟨ds, hds⟩ := parseDigitsWith_exists h3
  obtain ⟨hmap, hlt, hlen⟩ :=
    @parseDigitsWith_spec base36CharVal base36DigitChar 36
      (fun {c d} h => base36DigitChar_val h)
      (fun {c d} h => base36CharVal_lt h) s ds hds
  have hparse : parseBase 36 base36CharVal s =
      some (Nat.ofDigits 36 ds.reverse) := by
    rw [parseBase, if_neg h1, hds]
    rfl
  have hhex : base36tobase16 s = some (zfillChars 40
      ((baseReprDigits 16 (Nat.ofDigits 36 ds.reverse)).map base16DigitChar)) := by
    rw [base36tobase16, hparse]
    rfl
  have hparse16digits : parseDigitsWith base16CharVal
      (zfillChars 40 ((baseReprDigits 16 (Nat.ofDigits 36 ds.reverse)).map
        base16DigitChar)) =
      some (zfillDigits 40 (baseReprDigits 16 (Nat.ofDigits 36 ds.reverse))) := by
    rw [zfillChars_map rfl]
    exact @parseDigitsWith_map base16CharVal base16DigitChar 16
      (fun {d} hd => base16CharVal_digitChar hd) _
      (zfillDigits_lt (by norm_num) (baseRepr_lt (by norm_num)))
  have hne2 : zfillChars 40 ((baseReprDigits 16
      (Nat.ofDigits 36 ds.reverse)).map base16DigitChar) ≠ [] := by
    intro hcontra
    rw [zfillChars, List.append_eq_nil] at hcontra
    exact baseRepr_ne_nil 16 (Nat.ofDigits 36 ds.reverse)
      (List.map_eq_nil_iff.mp hcontra.2)
  have hparse16 : parseBase 16 base16CharVal (zfillChars 40
      ((baseReprDigits 16 (Nat.ofDigits 36 ds.reverse)).map base16DigitChar)) =
      some (Nat.ofDigits 36 ds.reverse) := by
    rw [parseBase, if_neg hne2, hparse16digits, Option.map_some']
    rw [zfillDigits_val, baseRepr_reverse_val]
  rw [hhex, Option.some_bind, base16tobase36, hparse16, Option.map_some']
  congr 1
  have hds31 : ds.length ≤ 31 := by rw [hlen]; exact h2
  calc zfillChars 31 ((baseReprDigits 36 (Nat.ofDigits 36 ds.reverse)).map
        base36DigitChar)
      = (zfillDigits 31 (baseReprDigits 36 (Nat.ofDigits 36 ds.reverse))).map
          base36DigitChar := zfillChars_map rfl 31 _
    _ = (zfillDigits 31 ds).map base36DigitChar := by
          rw [zfill_repr_eq ds hds31 hlt]
    _ = zfillChars 31 (ds.map base36DigitChar) := (zfillChars_map rfl 31 ds).symm
    _ = zfillChars 31 s := by rw [hmap]

/-- C8 witness: the round trip evaluated on the concrete base-36 string
2tx, whose padded form has 28 leading zeros. -/
theorem c8_witness :
    (base36tobase16 (['2', 't', 'x'] : List Char)).bind base16tobase36 =
      some (zfillChars 31 (['2', 't', 'x'] : List Char)) :=
  c8_roundtrip ['2', 't', 'x'] (by decide) (by decide) (by decide)

end Mediabackups
